import Mathlib

/-!
Shallow embedding of `tastypie_swagger/views.py` (django-tastypie-swagger).

The module contains four view classes built from three mixins:

* `LazyEncoder` — a `json.JSONEncoder` whose `default` forces Django lazy
  (`Promise`) strings to text;
* `TastypieApiMixin.tastypie_api` — a property resolving a dotted import path
  (`kwargs['tastypie_api_module']`) to a registry object via `sys.modules`,
  cached on the view instance in `_tastypie_api`;
* `SwaggerApiDataMixin.get_context_data` — adds `apiVersion`/`swaggerVersion`;
* `JSONView.render_to_response` — deletes the context keys `params` and
  `view`, then serializes the context with `json.dumps(context, cls=LazyEncoder)`
  and content type `application/json`;
* `ResourcesView.get_context_data` — builds the Swagger resource listing
  (`apis` from the sorted registry keys, `basePath` from the schema URL with
  `.strip('/')`);
* `SchemaView.get_context_data` — looks a resource up in the registry (404 if
  absent) and builds the per-resource declaration.

Python dicts are modelled as insertion-ordered association lists; JSON-able
Python values as the inductive `PyVal`; exceptions as `Except PyExc`.
-/

/-- JSON-serializable Python values as they occur in view contexts.
`promise` is a Django lazy string (`django.utils.functional.Promise`)
carrying the text that `force_text` would produce. -/
inductive PyVal where
  | pynone : PyVal
  | pybool : Bool → PyVal
  | pyint : Int → PyVal
  | pystr : String → PyVal
  | promise : String → PyVal
  | pylist : List PyVal → PyVal
  | pydict : List (String × PyVal) → PyVal

/-- Exceptions raised (directly or via Django) by the code in `views.py`. -/
inductive PyExc where
  | improperlyConfigured : PyExc
  | valueError : PyExc
  | http404 : PyExc
  deriving DecidableEq, Repr

/-- Python `dict` lookup (`d[k]` / `d.get(k)`): first binding for `k`. -/
def dictLookup {β : Type} (d : List (String × β)) (k : String) : Option β :=
  (d.find? (fun p => p.1 == k)).map Prod.snd

/-- Python `k in d`. -/
def dictContains {β : Type} (d : List (String × β)) (k : String) : Bool :=
  (dictLookup d k).isSome

/-- Python `d[k] = v`: replace the value in place if `k` is bound, else append
(insertion order). -/
def dictSet {β : Type} (d : List (String × β)) (k : String) (v : β) :
    List (String × β) :=
  if dictContains d k then
    d.map (fun p => if p.1 == k then (p.1, v) else p)
  else d ++ [(k, v)]

/-- Python `d.update(new)`: set each binding of `new` in order. -/
def dictUpdate {β : Type} (d new : List (String × β)) : List (String × β) :=
  new.foldl (fun acc p => dictSet acc p.1 p.2) d

/-- Python `del d[k]`. -/
def dictDel {β : Type} (d : List (String × β)) (k : String) : List (String × β) :=
  d.filter (fun p => p.1 != k)

/-- Four-digit lowercase hex, as in Python's `\uXXXX` JSON escapes. -/
def hex4 (n : Nat) : String :=
  let dig (m : Nat) : Char :=
    if m < 10 then Char.ofNat (48 + m) else Char.ofNat (87 + m)
  String.mk [dig (n / 4096 % 16), dig (n / 256 % 16), dig (n / 16 % 16), dig (n % 16)]

/-- One character of a JSON string under `json.dumps` defaults
(`ensure_ascii=True`): printable ASCII passes through, everything else is
escaped. -/
def escChar (c : Char) : String :=
  let n := c.toNat
  if c = '"' then "\\\""
  else if c = '\\' then "\\\\"
  else if c = '\n' then "\\n"
  else if c = '\t' then "\\t"
  else if c = '\r' then "\\r"
  else if n = 8 then "\\b"
  else if n = 12 then "\\f"
  else if n < 32 then "\\u" ++ hex4 n
  else if n < 127 then String.mk [c]
  else if n < 65536 then "\\u" ++ hex4 n
  else
    "\\u" ++ hex4 (55296 + (n - 65536) / 1024) ++ "\\u" ++ hex4 (56320 + (n - 65536) % 1024)

/-- A JSON string literal: quotes around the escaped characters. -/
def jsonQuote (s : String) : String :=
  "\"" ++ String.join (s.data.map escChar) ++ "\""

mutual
/-- Python `json.dumps(v, cls=LazyEncoder)` with default separators.  The
`LazyEncoder.default` branch is the `promise` case: a `Promise` is encoded as
`force_text(obj)`, i.e. as its resolved text. -/
def dumps : PyVal → String
  | .pynone => "null"
  | .pybool true => "true"
  | .pybool false => "false"
  | .pyint n => toString n
  | .pystr s => jsonQuote s
  | .promise s => jsonQuote s
  | .pylist xs => "[" ++ dumpsElems xs ++ "]"
  | .pydict d => "\x7b" ++ dumpsFields d ++ "\x7d"

/-- Comma-joined encodings of array elements. -/
def dumpsElems : List PyVal → String
  | [] => ""
  | [v] => dumps v
  | v :: w :: rest => dumps v ++ ", " ++ dumpsElems (w :: rest)

/-- Comma-joined `"key": value` encodings of object fields. -/
def dumpsFields : List (String × PyVal) → String
  | [] => ""
  | [(k, v)] => jsonQuote k ++ ": " ++ dumps v
  | (k, v) :: f :: rest => jsonQuote k ++ ": " ++ dumps v ++ ", " ++ dumpsFields (f :: rest)
end

mutual
/-- Replace every `promise` anywhere in a value by the plain string it
resolves to (`force_text`). -/
def resolvePromises : PyVal → PyVal
  | .promise s => .pystr s
  | .pylist xs => .pylist (resolvePromisesList xs)
  | .pydict d => .pydict (resolvePromisesFields d)
  | v => v

/-- Function `resolvePromises` mapped over array elements. -/
def resolvePromisesList : List PyVal → List PyVal
  | [] => []
  | v :: rest => resolvePromises v :: resolvePromisesList rest

/-- Function `resolvePromises` mapped over object field values. -/
def resolvePromisesFields : List (String × PyVal) → List (String × PyVal)
  | [] => []
  | (k, v) :: rest => (k, resolvePromises v) :: resolvePromisesFields rest
end

mutual
/-- Does the key `k` occur as an object key anywhere inside the value? -/
def hasKeyDeep (k : String) : PyVal → Bool
  | .pylist xs => hasKeyDeepList k xs
  | .pydict d => hasKeyDeepFields k d
  | _ => false

/-- Predicate `hasKeyDeep` over array elements. -/
def hasKeyDeepList (k : String) : List PyVal → Bool
  | [] => false
  | v :: rest => hasKeyDeep k v || hasKeyDeepList k rest

/-- Predicate `hasKeyDeep` over object fields: a field matches if its key is `k` or its
value contains `k`. -/
def hasKeyDeepFields (k : String) : List (String × PyVal) → Bool
  | [] => false
  | (k', v) :: rest => k' == k || hasKeyDeep k v || hasKeyDeepFields k rest
end

/-- Python code-point-lexicographic `<=` on strings, on character lists. -/
def strLeAux : List Char → List Char → Bool
  | [], _ => true
  | _ :: _, [] => false
  | a :: as, b :: bs =>
    if a.toNat < b.toNat then true
    else if b.toNat < a.toNat then false
    else strLeAux as bs

/-- Python's `s <= t` for strings. -/
def pyLe (a b : String) : Prop := strLeAux a.data b.data = true

instance : DecidableRel pyLe := fun a b => by
  unfold pyLe; infer_instance

/-- Python `sorted(...)` on strings (a stable sort under `pyLe`). -/
def pySorted (l : List String) : List String := List.insertionSort pyLe l

/-- Python `s.strip(c)` for a single strip character: remove every leading and
trailing occurrence of `c`. -/
def pyStrip (c : Char) (s : String) : String :=
  String.mk (((s.data.dropWhile (· == c)).reverse.dropWhile (· == c)).reverse)

/-- The pair returned by an `HttpResponse`: body and content type. -/
structure HttpResponseModel where
  body : String
  contentType : String
  deriving DecidableEq, Repr

/-- The context `JSONView.render_to_response` actually serializes: the loop
deletes `params` and `view`, and the (redundant) trailing `if` deletes `view`
again. -/
def strippedContext (context : List (String × PyVal)) : List (String × PyVal) :=
  dictDel (dictDel (dictDel context "params") "view") "view"

/-- Method `JSONView.render_to_response`: strip the bookkeeping keys, then respond
with `json.dumps(context, cls=LazyEncoder)` as `application/json`. -/
def render_to_response (context : List (String × PyVal)) : HttpResponseModel :=
  { body := dumps (.pydict (strippedContext context)),
    contentType := "application/json" }

/-- Method `SwaggerApiDataMixin.get_context_data`: update the superclass context with
the fixed version keys. -/
def swaggerApiData_context (superContext : List (String × PyVal)) :
    List (String × PyVal) :=
  dictUpdate superContext
    [("apiVersion", .pystr "0.1"), ("swaggerVersion", .pystr "1.1")]

/-- The `apis` entries of `ResourcesView`:
`[{'path': '/%s' % name} for name in sorted(self.tastypie_api._registry.keys())]`. -/
def listingApis {ρ : Type} (registry : List (String × ρ)) : List PyVal :=
  (pySorted (registry.map Prod.fst)).map
    (fun name => PyVal.pydict [("path", .pystr ("/" ++ name))])

/-- Method `ResourcesView.get_context_data`.  Here `superContext` is whatever
`TemplateView.get_context_data` returned below the swagger mixin;
`schemaUrlAbs` is `request.build_absolute_uri(reverse('...:schema'))`. -/
def resourcesView_context {ρ : Type} (superContext : List (String × PyVal))
    (registry : List (String × ρ)) (schemaUrlAbs : String) :
    List (String × PyVal) :=
  dictUpdate (swaggerApiData_context superContext)
    [("basePath", .pystr (pyStrip '/' schemaUrlAbs)),
     ("apis", .pylist (listingApis registry))]

/-- Method `SchemaView.get_context_data`.  Here `resourceKwarg` is
`kwargs.get('resource', None)`; a missing name or a name absent from
`self.tastypie_api._registry` raises `Http404` before anything else runs.
`build_apis`/`build_models` stand for the `ResourceSwaggerMapping` methods
(defined in `mapping.py`, outside this module); `siteRootAbs` is
`request.build_absolute_uri('/')`. -/
def schemaView_context {ρ : Type} (superContext : List (String × PyVal))
    (registry : List (String × ρ)) (build_apis build_models : ρ → PyVal)
    (siteRootAbs : String) (resourceKwarg : Option String) :
    Except PyExc (List (String × PyVal)) :=
  match resourceKwarg with
  | Option.none => .error .http404
  | Option.some resource_name =>
    match dictLookup registry resource_name with
    | Option.none => .error .http404
    | Option.some resource =>
      .ok (dictUpdate (swaggerApiData_context superContext)
        [("basePath", .pystr (pyStrip '/' siteRootAbs)),
         ("apis", build_apis resource),
         ("models", build_models resource)])

/-- Python `s.rsplit(c, 1)` followed by a two-variable unpack: `some (before,
after)` splitting at the last occurrence of `c`, or `none` when `c` does not
occur (in which case the unpack raises `ValueError`). -/
def rsplit1 (c : Char) (s : String) : Option (String × String) :=
  if s.data.contains c then
    Option.some
      (String.mk (s.data.take
        (s.data.length - (s.data.reverse.takeWhile (fun a => a != c)).reverse.length - 1)),
       String.mk (s.data.reverse.takeWhile (fun a => a != c)).reverse)
  else Option.none

/-- An arbitrary (non-`None`) Python object: an identity and a truthiness.
The code under test never inspects anything else about the resolved registry
object. -/
structure PyObj where
  id : Nat
  truthy : Bool
  deriving DecidableEq, Repr

/-- A module's attribute dictionary; a binding to `Option.none` is an
attribute whose value is Python `None`. -/
def PyModule : Type := List (String × Option PyObj)

/-- Python `sys.modules`. -/
def Modules : Type := List (String × PyModule)

/-- Python truthiness of a possibly-`None` object. -/
def pyTruthy : Option PyObj → Bool
  | Option.none => false
  | Option.some o => o.truthy

/-- Python `getattr(module, attr, None)`. -/
def getattrOrNone (md : PyModule) (attr : String) : Option PyObj :=
  match dictLookup md attr with
  | Option.none => Option.none
  | Option.some v => v

/-- The body of the `TastypieApiMixin.tastypie_api` property past the cache
check: read `kwargs['tastypie_api_module']`, reject a missing or empty value
(`if not tastypie_api_module`), `rsplit('.', 1)` it, look the module up in
`sys.modules` (a `KeyError` is converted to `ImproperlyConfigured`), read the
attribute with `getattr(..., None)`, and reject a falsy result. -/
def tastypie_api_resolve (tastypie_api_module : Option String)
    (modules : Modules) : Except PyExc PyObj :=
  match tastypie_api_module with
  | Option.none => .error .improperlyConfigured
  | Option.some m =>
    if m = "" then .error .improperlyConfigured
    else
      match rsplit1 '.' m with
      | Option.none => .error .valueError
      | Option.some (path, attr) =>
        match dictLookup modules path with
        | Option.none => .error .improperlyConfigured
        | Option.some md =>
          match getattrOrNone md attr with
          | Option.none => .error .improperlyConfigured
          | Option.some o =>
            if o.truthy then .ok o else .error .improperlyConfigured

/-- The per-request view object as the property sees it: the `_tastypie_api`
cache slot (class default `None`) and the URLconf `kwargs`. -/
structure ViewState where
  tastypie_api_cache : Option PyObj
  kwargs : List (String × String)
  deriving DecidableEq, Repr

/-- The resolve-and-cache arm of the property: run the resolution and store a
successful result in `self._tastypie_api`. -/
def tastypie_api_refill (self : ViewState) (modules : Modules) :
    Except PyExc (PyObj × ViewState) :=
  match tastypie_api_resolve (dictLookup self.kwargs "tastypie_api_module") modules with
  | .error e => .error e
  | .ok o => .ok (o, { self with tastypie_api_cache := Option.some o })

/-- Property `TastypieApiMixin.tastypie_api`: on `if not self._tastypie_api:` resolve and
cache; return the cached object together with the (possibly updated) view
state. -/
def tastypie_api (self : ViewState) (modules : Modules) :
    Except PyExc (PyObj × ViewState) :=
  match self.tastypie_api_cache with
  | Option.some o =>
    if o.truthy then .ok (o, self) else tastypie_api_refill self modules
  | Option.none => tastypie_api_refill self modules

/-! ## Association-list (Python dict) lemmas -/

theorem dictLookup_nil {β : Type} (k : String) :
    dictLookup ([] : List (String × β)) k = Option.none := rfl

theorem dictLookup_cons {β : Type} (a : String × β) (d : List (String × β))
    (k : String) :
    dictLookup (a :: d) k = if a.1 == k then Option.some a.2 else dictLookup d k := by
  by_cases h : a.1 == k <;> simp [dictLookup, List.find?, h]

theorem dictLookup_append {β : Type} (d e : List (String × β)) (k : String) :
    dictLookup (d ++ e) k = (dictLookup d k).or (dictLookup e k) := by
  unfold dictLookup
  rw [List.find?_append]
  cases List.find? (fun p => p.1 == k) d <;> simp

theorem dictLookup_map_set {β : Type} (d : List (String × β)) (k : String) (v : β) :
    dictLookup (d.map (fun p => if p.1 == k then (p.1, v) else p)) k
      = (dictLookup d k).map (fun _ => v) := by
  induction d with
  | nil => rfl
  | cons a t ih =>
    obtain ⟨ka, va⟩ := a
    have ih' := ih
    simp only [beq_iff_eq] at ih'
    cases h : (ka == k) with
    | true =>
      have he : ka = k := by simpa using h
      simp [dictLookup_cons, he, ih']
    | false =>
      have hne : ¬ ka = k := by simpa using h
      simp [dictLookup_cons, hne, ih']

theorem dictLookup_dictSet_self {β : Type} (d : List (String × β)) (k : String)
    (v : β) : dictLookup (dictSet d k v) k = Option.some v := by
  unfold dictSet
  by_cases hc : dictContains d k = true
  · rw [if_pos hc, dictLookup_map_set]
    unfold dictContains at hc
    cases hl : dictLookup d k with
    | none => rw [hl] at hc; simp at hc
    | some w => simp
  · rw [if_neg hc, dictLookup_append]
    unfold dictContains at hc
    cases hl : dictLookup d k with
    | some w => rw [hl] at hc; simp at hc
    | none => simp [dictLookup_cons]

theorem dictLookup_dictSet_ne {β : Type} (d : List (String × β)) (k k' : String)
    (v : β) (h : k' ≠ k) : dictLookup (dictSet d k' v) k = dictLookup d k := by
  unfold dictSet
  by_cases hc : dictContains d k' = true
  · rw [if_pos hc]
    clear hc
    induction d with
    | nil => rfl
    | cons a t ih =>
      obtain ⟨ka, va⟩ := a
      have ih' := ih
      simp only [beq_iff_eq] at ih'
      cases h' : (ka == k') with
      | true =>
        have hk' : ka = k' := by simpa using h'
        simp [dictLookup_cons, hk', h, ih']
      | false =>
        have hne : ¬ ka = k' := by simpa using h'
        simp [dictLookup_cons, hne, ih']
  · rw [if_neg hc, dictLookup_append]
    have hkk : (k' == k) = false := by simpa using h
    cases hl : dictLookup d k <;> simp [dictLookup_cons, dictLookup_nil, hkk, hl]

theorem dictLookup_dictDel_ne {β : Type} (d : List (String × β)) (k k' : String)
    (h : k' ≠ k) : dictLookup (dictDel d k') k = dictLookup d k := by
  induction d with
  | nil => rfl
  | cons a t ih =>
    obtain ⟨ka, va⟩ := a
    simp only [dictDel, List.filter_cons] at ih ⊢
    cases h2 : (ka != k') with
    | true => simp [dictLookup_cons, h2, ih]
    | false =>
      have hk' : ka = k' := by simpa using h2
      have hak : (ka == k) = false := by rw [hk']; simpa using h
      simp [dictLookup_cons, h2, hak, ih]

theorem dictContains_dictDel_self {β : Type} (d : List (String × β)) (k : String) :
    dictContains (dictDel d k) k = false := by
  induction d with
  | nil => rfl
  | cons a t ih =>
    obtain ⟨ka, va⟩ := a
    simp only [dictDel, List.filter_cons] at ih ⊢
    cases h2 : (ka != k) with
    | true =>
      have hak : (ka == k) = false := by simpa using h2
      simpa [dictContains, dictLookup_cons, h2, hak] using ih
    | false => simpa [h2] using ih

/-! ## Claim theorems -/

/-- C8: for every context mapping, the JSON Responder's response carries
content type `application/json`, regardless of the context's contents. -/
theorem render_to_response_content_type (context : List (String × PyVal)) :
    (render_to_response context).contentType = "application/json" := rfl

/-- C2: for every resource name absent from the resolved registry, the
Declaration Endpoint's `get_context_data` raises `Http404` (and in particular
no other exception), for any mapping functions, base context and site root. -/
theorem schemaView_absent_resource_404 {ρ : Type}
    (superContext : List (String × PyVal)) (registry : List (String × ρ))
    (build_apis build_models : ρ → PyVal) (siteRootAbs : String) (name : String)
    (h : dictLookup registry name = Option.none) :
    schemaView_context superContext registry build_apis build_models siteRootAbs
      (Option.some name) = .error .http404 := by
  simp [schemaView_context, h]

/-- Witness for C2: the name `"film"` is absent from the registry
`{"book": 0}` and the Declaration Endpoint's context computation raises 404. -/
theorem schemaView_absent_resource_404_witness :
    dictLookup [("book", (0 : Nat))] "film" = Option.none ∧
    schemaView_context [] [("book", (0 : Nat))] (fun _ => .pynone)
      (fun _ => .pynone) "http://testserver/" (Option.some "film")
      = .error .http404 :=
  ⟨by decide, schemaView_absent_resource_404 [] [("book", (0 : Nat))]
    (fun _ => .pynone) (fun _ => .pynone) "http://testserver/" "film" (by decide)⟩

/-- Looking a key up below `strippedContext` is transparent for keys other
than `params` and `view`. -/
theorem dictLookup_strippedContext (d : List (String × PyVal)) (k : String)
    (h1 : k ≠ "params") (h2 : k ≠ "view") :
    dictLookup (strippedContext d) k = dictLookup d k := by
  unfold strippedContext
  rw [dictLookup_dictDel_ne _ _ _ (Ne.symm h2), dictLookup_dictDel_ne _ _ _ (Ne.symm h2),
    dictLookup_dictDel_ne _ _ _ (Ne.symm h1)]

/-- C3 counterexample: with the context `{"a": {"params": None}}` — which the
top-level deletion loop leaves untouched — the serialized value still
contains the object key `"params"`, and the response body is literally
`{"a": {"params": null}}`. -/
theorem render_nested_params_key_survives :
    hasKeyDeep "params"
      (.pydict (strippedContext [("a", .pydict [("params", .pynone)])])) = true ∧
    (render_to_response [("a", .pydict [("params", .pynone)])]).body
      = "\x7b\"a\": \x7b\"params\": null\x7d\x7d" := by
  constructor
  · decide
  · rfl

/-- C3 (amended): the JSON Responder never emits `params` or `view` as
top-level keys of its output object; a nested object inside a context value
can still contain them (see the counterexample). -/
theorem render_strips_top_level_params_view (context : List (String × PyVal)) :
    dictContains (strippedContext context) "params" = false ∧
    dictContains (strippedContext context) "view" = false := by
  constructor
  · unfold strippedContext dictContains
    rw [dictLookup_dictDel_ne _ _ _ (by decide), dictLookup_dictDel_ne _ _ _ (by decide)]
    have h := dictContains_dictDel_self context "params"
    unfold dictContains at h
    exact h
  · unfold strippedContext
    exact dictContains_dictDel_self _ "view"

mutual
/-- Function `dumps` is invariant under resolving lazy strings first: the encoder
already serializes a `Promise` as its resolved text. -/
theorem dumps_resolvePromises : (v : PyVal) → dumps (resolvePromises v) = dumps v
  | .pynone => by simp [resolvePromises]
  | .pybool b => by simp [resolvePromises]
  | .pyint n => by simp [resolvePromises]
  | .pystr s => by simp [resolvePromises]
  | .promise s => by simp [resolvePromises, dumps]
  | .pylist xs => by
    rw [resolvePromises]
    simp only [dumps]
    rw [dumpsElems_resolvePromisesList xs]
  | .pydict d => by
    rw [resolvePromises]
    simp only [dumps]
    rw [dumpsFields_resolvePromisesFields d]

/-- Function `dumpsElems` is invariant under resolving lazy strings first. -/
theorem dumpsElems_resolvePromisesList :
    (xs : List PyVal) → dumpsElems (resolvePromisesList xs) = dumpsElems xs
  | [] => by simp [resolvePromisesList]
  | [v] => by
    simp only [resolvePromisesList]
    simp only [dumpsElems]
    rw [dumps_resolvePromises v]
  | v :: w :: rest => by
    have h2 := dumpsElems_resolvePromisesList (w :: rest)
    simp only [resolvePromisesList] at h2 ⊢
    simp only [dumpsElems]
    rw [dumps_resolvePromises v, h2]

/-- Function `dumpsFields` is invariant under resolving lazy strings first. -/
theorem dumpsFields_resolvePromisesFields :
    (d : List (String × PyVal)) → dumpsFields (resolvePromisesFields d) = dumpsFields d
  | [] => by simp [resolvePromisesFields]
  | [(k, v)] => by
    simp only [resolvePromisesFields]
    simp only [dumpsFields]
    rw [dumps_resolvePromises v]
  | (k, v) :: f :: rest => by
    have h2 := dumpsFields_resolvePromisesFields (f :: rest)
    simp only [resolvePromisesFields] at h2 ⊢
    simp only [dumpsFields]
    rw [dumps_resolvePromises v, h2]
end

/-- Function `resolvePromisesFields` is a key-preserving map over the field values. -/
theorem resolvePromisesFields_eq_map (d : List (String × PyVal)) :
    resolvePromisesFields d = d.map (fun p => (p.1, resolvePromises p.2)) := by
  induction d with
  | nil => simp [resolvePromisesFields]
  | cons a t ih =>
    obtain ⟨k, v⟩ := a
    simp only [resolvePromisesFields, List.map_cons, ih]

/-- Deletion `dictDel` commutes with a key-preserving map of the values. -/
theorem dictDel_map_resolve (d : List (String × PyVal)) (k : String) :
    dictDel (d.map (fun p => (p.1, resolvePromises p.2))) k
      = (dictDel d k).map (fun p => (p.1, resolvePromises p.2)) := by
  induction d with
  | nil => rfl
  | cons a t ih =>
    obtain ⟨ka, va⟩ := a
    simp only [dictDel, List.filter_cons] at ih ⊢
    cases h2 : (ka != k) with
    | true => simp [h2, ih]
    | false => simp [h2, ih]

/-- C5: a lazy (`Promise`) string anywhere in the context serializes to its
resolved text: a `Promise` dumps exactly like the plain string it resolves
to, and the response body of any context is unchanged if every `Promise` in
it is replaced by its resolved string first. -/
theorem render_serializes_promises_as_text :
    (∀ s : String, dumps (.promise s) = dumps (.pystr s)) ∧
    (∀ context : List (String × PyVal),
      (render_to_response (context.map (fun p => (p.1, resolvePromises p.2)))).body
        = (render_to_response context).body) := by
  constructor
  · intro s
    simp [dumps]
  · intro context
    show dumps (.pydict (strippedContext (context.map _)))
      = dumps (.pydict (strippedContext context))
    unfold strippedContext
    rw [dictDel_map_resolve, dictDel_map_resolve, dictDel_map_resolve]
    rw [← resolvePromisesFields_eq_map]
    have h := dumps_resolvePromises
      (.pydict (dictDel (dictDel (dictDel context "params") "view") "view"))
    rw [resolvePromises] at h
    exact h

/-- Context `swaggerApiData_context` binds `apiVersion` to `"0.1"`. -/
theorem swaggerApiData_apiVersion (base : List (String × PyVal)) :
    dictLookup (swaggerApiData_context base) "apiVersion"
      = Option.some (.pystr "0.1") := by
  unfold swaggerApiData_context
  simp only [dictUpdate, List.foldl]
  rw [dictLookup_dictSet_ne _ _ _ _ (by decide), dictLookup_dictSet_self]

/-- Context `swaggerApiData_context` binds `swaggerVersion` to `"1.1"`. -/
theorem swaggerApiData_swaggerVersion (base : List (String × PyVal)) :
    dictLookup (swaggerApiData_context base) "swaggerVersion"
      = Option.some (.pystr "1.1") := by
  unfold swaggerApiData_context
  simp only [dictUpdate, List.foldl]
  rw [dictLookup_dictSet_self]

/-- C7: every JSON response of the Listing Endpoint and of the Declaration
Endpoint carries `apiVersion = "0.1"` and `swaggerVersion = "1.1"` among the
serialized top-level keys, for every base context, registry and URL. -/
theorem responses_carry_fixed_versions {ρ : Type}
    (superContext : List (String × PyVal)) (registry : List (String × ρ))
    (schemaUrlAbs : String) :
    (dictLookup (strippedContext
        (resourcesView_context superContext registry schemaUrlAbs)) "apiVersion"
        = Option.some (.pystr "0.1") ∧
     dictLookup (strippedContext
        (resourcesView_context superContext registry schemaUrlAbs)) "swaggerVersion"
        = Option.some (.pystr "1.1")) ∧
    (∀ (build_apis build_models : ρ → PyVal) (siteRootAbs : String)
        (resourceKwarg : Option String) (ctx : List (String × PyVal)),
      schemaView_context superContext registry build_apis build_models
          siteRootAbs resourceKwarg = .ok ctx →
      dictLookup (strippedContext ctx) "apiVersion" = Option.some (.pystr "0.1") ∧
      dictLookup (strippedContext ctx) "swaggerVersion" = Option.some (.pystr "1.1")) := by
  refine ⟨⟨?_, ?_⟩, ?_⟩
  · rw [dictLookup_strippedContext _ _ (by decide) (by decide)]
    unfold resourcesView_context
    simp only [dictUpdate, List.foldl]
    rw [dictLookup_dictSet_ne _ _ _ _ (by decide),
      dictLookup_dictSet_ne _ _ _ _ (by decide)]
    exact swaggerApiData_apiVersion _
  · rw [dictLookup_strippedContext _ _ (by decide) (by decide)]
    unfold resourcesView_context
    simp only [dictUpdate, List.foldl]
    rw [dictLookup_dictSet_ne _ _ _ _ (by decide),
      dictLookup_dictSet_ne _ _ _ _ (by decide)]
    exact swaggerApiData_swaggerVersion _
  · intro build_apis build_models siteRootAbs resourceKwarg ctx h
    cases resourceKwarg with
    | none => simp [schemaView_context] at h
    | some name =>
      cases hl : dictLookup registry name with
      | none => simp [schemaView_context, hl] at h
      | some resource =>
        simp only [schemaView_context, hl] at h
        cases h
        constructor
        · rw [dictLookup_strippedContext _ _ (by decide) (by decide)]
          simp only [dictUpdate, List.foldl]
          rw [dictLookup_dictSet_ne _ _ _ _ (by decide),
            dictLookup_dictSet_ne _ _ _ _ (by decide),
            dictLookup_dictSet_ne _ _ _ _ (by decide)]
          exact swaggerApiData_apiVersion _
        · rw [dictLookup_strippedContext _ _ (by decide) (by decide)]
          simp only [dictUpdate, List.foldl]
          rw [dictLookup_dictSet_ne _ _ _ _ (by decide),
            dictLookup_dictSet_ne _ _ _ _ (by decide),
            dictLookup_dictSet_ne _ _ _ _ (by decide)]
          exact swaggerApiData_swaggerVersion _

/-- Witness for C7: both version keys come out right on the registry
`{"book": 0}`, both for the listing context and for the declaration context
of `"book"`. -/
theorem responses_carry_fixed_versions_witness :
    dictLookup (strippedContext
        (resourcesView_context [] [("book", (0 : Nat))] "http://testserver/schema/"))
        "apiVersion" = Option.some (.pystr "0.1") ∧
    ∃ ctx, schemaView_context [] [("book", (0 : Nat))] (fun _ => .pynone)
        (fun _ => .pynone) "http://testserver/" (Option.some "book") = .ok ctx ∧
      dictLookup (strippedContext ctx) "swaggerVersion" = Option.some (.pystr "1.1") :=
  ⟨(responses_carry_fixed_versions [] [("book", (0 : Nat))] "http://testserver/schema/").1.1,
   ⟨_, rfl,
    ((responses_carry_fixed_versions [] [("book", (0 : Nat))] "http://testserver/schema/").2
      (fun _ => .pynone) (fun _ => .pynone) "http://testserver/" (Option.some "book")
      _ rfl).2⟩⟩

/-- Function `takeWhile` stops exactly at the first failing element. -/
theorem takeWhile_append_of_all {α : Type} (p : α → Bool) (l : List α) (c : α)
    (r : List α) (hl : ∀ a ∈ l, p a = true) (hc : p c = false) :
    (l ++ c :: r).takeWhile p = l := by
  induction l with
  | nil => simp [List.takeWhile_cons, hc]
  | cons a t ih =>
    have ha : p a = true := hl a (by simp)
    have ht : ∀ a ∈ t, p a = true := fun x hx => hl x (by simp [hx])
    simp [List.takeWhile_cons, ha, ih ht]

/-- Python `s.rsplit('.', 1)` on a string built as `path + "." + attr` with a
dot-free `attr` splits back into `path` and `attr`. -/
theorem rsplit1_concat (path attr : String) (h : attr.data.contains '.' = false) :
    rsplit1 '.' (path ++ "." ++ attr) = Option.some (path, attr) := by
  have hdata : (path ++ "." ++ attr).data = path.data ++ '.' :: attr.data := by
    simp [String.data_append]
  have hmem : ¬ '.' ∈ attr.data := by simpa using h
  unfold rsplit1
  rw [hdata]
  have hcontains : (path.data ++ '.' :: attr.data).contains '.' = true := by simp
  rw [if_pos hcontains]
  have hrev : (path.data ++ '.' :: attr.data).reverse
      = attr.data.reverse ++ '.' :: path.data.reverse := by simp
  rw [hrev]
  have htake : (attr.data.reverse ++ '.' :: path.data.reverse).takeWhile
      (fun a => a != '.') = attr.data.reverse := by
    refine takeWhile_append_of_all _ _ _ _ (fun a ha => ?_) (by simp)
    have hin : a ∈ attr.data := by simpa using ha
    have hne : a ≠ '.' := fun he => hmem (he ▸ hin)
    simpa using hne
  rw [htake, List.reverse_reverse]
  have hlen : (path.data ++ '.' :: attr.data).length - attr.data.length - 1
      = path.data.length := by
    simp [List.length_append]
    omega
  rw [hlen, List.take_left]

/-- C10: with a loaded module and a dot-free attribute name, the registry
accessor's verdict is decided by Python truthiness of the attribute value
alone: `None`/absent/falsy raises `ImproperlyConfigured`, and any truthy
object is returned as the registry with no instance-type check. -/
theorem registry_validity_by_truthiness (path attr : String) (mods : Modules)
    (md : PyModule) (hattr : attr.data.contains '.' = false)
    (hmod : dictLookup mods path = Option.some md) :
    tastypie_api_resolve (Option.some (path ++ "." ++ attr)) mods
      = match getattrOrNone md attr with
        | Option.none => .error .improperlyConfigured
        | Option.some o =>
          if o.truthy then .ok o else .error .improperlyConfigured := by
  have hne : ¬ (path ++ "." ++ attr) = "" := by
    intro he
    have hd : (path ++ "." ++ attr).data = [] := by rw [he]
    rw [String.data_append, String.data_append] at hd
    simp at hd
  simp only [tastypie_api_resolve, if_neg hne, rsplit1_concat path attr hattr, hmod]

/-- Witness for C10: the truthy object at `app.api` is accepted as the
registry. -/
theorem registry_validity_by_truthiness_witness :
    ("api" : String).data.contains '.' = false ∧
    tastypie_api_resolve (Option.some ("app" ++ "." ++ "api"))
        [("app", [("api", Option.some (PyObj.mk 7 true))])]
      = .ok (PyObj.mk 7 true) := by
  refine ⟨by decide, ?_⟩
  rw [registry_validity_by_truthiness "app" "api"
    [("app", [("api", Option.some (PyObj.mk 7 true))])]
    [("api", Option.some (PyObj.mk 7 true))] (by decide) (by rfl)]
  rfl

/-- C4 counterexample: a configured path with no dot separator (a malformed
path string) makes the accessor raise `ValueError` (from unpacking
`rsplit('.', 1)`), not a configuration error. -/
theorem tastypie_api_nodot_value_error :
    tastypie_api_resolve (Option.some "apiregistry") [] = .error .valueError ∧
    PyExc.valueError ≠ PyExc.improperlyConfigured := by
  exact ⟨by rfl, by decide⟩

/-- C4 (amended): every failure of the registry accessor is
`ImproperlyConfigured`, except for exactly one case — a nonempty configured
path containing no dot — which fails with `ValueError` instead. -/
theorem tastypie_api_resolve_error_kinds (m : Option String) (mods : Modules) :
    (∀ e, tastypie_api_resolve m mods = .error e →
      e = .improperlyConfigured ∨
        (e = .valueError ∧
         ∃ s, m = Option.some s ∧ s ≠ "" ∧ s.data.contains '.' = false)) ∧
    (∀ s, m = Option.some s → s ≠ "" → s.data.contains '.' = false →
      tastypie_api_resolve m mods = .error .valueError) := by
  constructor
  · intro e he
    cases m with
    | none =>
      simp only [tastypie_api_resolve] at he
      injection he with h
      exact Or.inl h.symm
    | some s =>
      by_cases hs : s = ""
      · simp only [tastypie_api_resolve] at he
        rw [if_pos hs] at he
        injection he with h
        exact Or.inl h.symm
      · cases hr : rsplit1 '.' s with
        | none =>
          have hcon : s.data.contains '.' = false := by
            by_cases hc : s.data.contains '.' = true
            · unfold rsplit1 at hr
              rw [if_pos hc] at hr
              simp at hr
            · simpa using hc
          simp only [tastypie_api_resolve] at he
          rw [if_neg hs, hr] at he
          injection he with h
          exact Or.inr ⟨h.symm, s, rfl, hs, hcon⟩
        | some pa =>
          obtain ⟨pa1, pa2⟩ := pa
          simp only [tastypie_api_resolve] at he
          rw [if_neg hs, hr] at he
          cases hm : dictLookup mods pa1 with
          | none =>
            simp only [hm] at he
            injection he with h
            exact Or.inl h.symm
          | some md =>
            simp only [hm] at he
            cases hg : getattrOrNone md pa2 with
            | none =>
              simp only [hg] at he
              injection he with h
              exact Or.inl h.symm
            | some o =>
              simp only [hg] at he
              by_cases ht : o.truthy = true
              · rw [if_pos ht] at he
                exact Except.noConfusion he
              · rw [if_neg ht] at he
                injection he with h
                exact Or.inl h.symm
  · intro s hm hs hdot
    subst hm
    have hcond : ¬ (s.data.contains '.' = true) := by rw [hdot]; simp
    have hr : rsplit1 '.' s = Option.none := by
      unfold rsplit1
      rw [if_neg hcond]
    simp only [tastypie_api_resolve]
    rw [if_neg hs, hr]

/-- Witness for C4 (amended): at the loaded-module-free path `app.api` the
failure is `ImproperlyConfigured`; at the dotless path `plainname` it is
`ValueError`. -/
theorem tastypie_api_resolve_error_kinds_witness :
    (tastypie_api_resolve (Option.some "app.api") [] = .error .improperlyConfigured) ∧
    tastypie_api_resolve (Option.some "plainname") [] = .error .valueError := by
  constructor
  · have h := (tastypie_api_resolve_error_kinds (Option.some "app.api") []).1
      PyExc.improperlyConfigured (by rfl)
    exact (by rfl : tastypie_api_resolve (Option.some "app.api") []
      = .error .improperlyConfigured)
  · exact (tastypie_api_resolve_error_kinds (Option.some "plainname") []).2
      "plainname" rfl (by decide) (by decide)

/-- The accessor only ever returns truthy objects (the falsy case raises). -/
theorem tastypie_api_resolve_ok_truthy (x : Option String) (mods : Modules)
    (o : PyObj) (h : tastypie_api_resolve x mods = .ok o) : o.truthy = true := by
  cases x with
  | none => exact Except.noConfusion h
  | some s =>
    by_cases hs : s = ""
    · simp only [tastypie_api_resolve] at h
      rw [if_pos hs] at h
      exact Except.noConfusion h
    · simp only [tastypie_api_resolve] at h
      rw [if_neg hs] at h
      cases hr : rsplit1 '.' s with
      | none =>
        rw [hr] at h
        exact Except.noConfusion h
      | some pa =>
        obtain ⟨pa1, pa2⟩ := pa
        rw [hr] at h
        cases hm : dictLookup mods pa1 with
        | none =>
          simp only [hm] at h
          exact Except.noConfusion h
        | some md =>
          simp only [hm] at h
          cases hg : getattrOrNone md pa2 with
          | none =>
            simp only [hg] at h
            exact Except.noConfusion h
          | some o2 =>
            simp only [hg] at h
            by_cases ht : o2.truthy = true
            · rw [if_pos ht] at h
              injection h with h2
              cases h2
              exact ht
            · rw [if_neg ht] at h
              exact Except.noConfusion h

/-- C9: the accessor caches per view object: a successful access stores the
registry in the object's `_tastypie_api` slot, and every later access on that
same object returns the same registry and state without consulting
`sys.modules` at all (any `mods'`, even empty, gives the same answer); a
fresh object (cache slot `None`) always performs a full resolution — there is
no cache anywhere but in the object's own state. -/
theorem tastypie_api_cached_per_object (self : ViewState) (mods : Modules)
    (o : PyObj) (s' : ViewState)
    (h : tastypie_api self mods = .ok (o, s')) :
    s'.tastypie_api_cache = Option.some o ∧
    (∀ mods' : Modules, tastypie_api s' mods' = .ok (o, s')) ∧
    (∀ (kwargs : List (String × String)) (mods0 : Modules),
      tastypie_api ⟨Option.none, kwargs⟩ mods0
        = tastypie_api_refill ⟨Option.none, kwargs⟩ mods0) := by
  have key : s'.tastypie_api_cache = Option.some o ∧ o.truthy = true := by
    have hrefill : ∀ (st : ViewState),
        tastypie_api_refill st mods = .ok (o, s') →
        s'.tastypie_api_cache = Option.some o ∧ o.truthy = true := by
      intro st hr
      unfold tastypie_api_refill at hr
      cases hres : tastypie_api_resolve
          (dictLookup st.kwargs "tastypie_api_module") mods with
      | error e =>
        rw [hres] at hr
        exact Except.noConfusion hr
      | ok o1 =>
        simp only [hres] at hr
        injection hr with h2
        have hfst : o1 = o := congrArg Prod.fst h2
        have hsnd : ({ st with tastypie_api_cache := Option.some o1 } : ViewState)
            = s' := congrArg Prod.snd h2
        subst hfst
        constructor
        · rw [← hsnd]
        · exact tastypie_api_resolve_ok_truthy _ _ _ hres
    unfold tastypie_api at h
    cases hc : self.tastypie_api_cache with
    | some o0 =>
      simp only [hc] at h
      by_cases ht : o0.truthy = true
      · rw [if_pos ht] at h
        injection h with h2
        have hfst : o0 = o := congrArg Prod.fst h2
        have hsnd : self = s' := congrArg Prod.snd h2
        subst hfst
        subst hsnd
        exact ⟨hc, ht⟩
      · rw [if_neg ht] at h
        exact hrefill self h
    | none =>
      simp only [hc] at h
      exact hrefill self h
  obtain ⟨hcache, htruthy⟩ := key
  refine ⟨hcache, fun mods' => ?_, fun kwargs mods0 => rfl⟩
  simp only [tastypie_api, hcache]
  rw [if_pos htruthy]

/-- Witness for C9: after one successful resolution of `app.api` the view
state caches the object, and the second access succeeds identically even with
an empty `sys.modules`. -/
theorem tastypie_api_cached_per_object_witness :
    tastypie_api
        ⟨Option.none, [("tastypie_api_module", "app.api")]⟩
        [("app", [("api", Option.some (PyObj.mk 1 true))])]
      = .ok (PyObj.mk 1 true,
          ⟨Option.some (PyObj.mk 1 true), [("tastypie_api_module", "app.api")]⟩) ∧
    tastypie_api
        ⟨Option.some (PyObj.mk 1 true), [("tastypie_api_module", "app.api")]⟩ []
      = .ok (PyObj.mk 1 true,
          ⟨Option.some (PyObj.mk 1 true), [("tastypie_api_module", "app.api")]⟩) :=
  ⟨rfl,
   (tastypie_api_cached_per_object
      ⟨Option.none, [("tastypie_api_module", "app.api")]⟩
      [("app", [("api", Option.some (PyObj.mk 1 true))])]
      (PyObj.mk 1 true)
      ⟨Option.some (PyObj.mk 1 true), [("tastypie_api_module", "app.api")]⟩
      rfl).2.1 []⟩

/-- Comparator `strLeAux` is total. -/
theorem strLeAux_total : (as bs : List Char) →
    strLeAux as bs = true ∨ strLeAux bs as = true
  | [], _ => Or.inl rfl
  | _ :: _, [] => Or.inr rfl
  | a :: as, b :: bs => by
    by_cases h1 : a.toNat < b.toNat
    · left
      simp [strLeAux, h1]
    · by_cases h2 : b.toNat < a.toNat
      · right
        simp [strLeAux, h2]
      · rcases strLeAux_total as bs with h | h
        · left
          simp [strLeAux, h1, h2, h]
        · right
          simp [strLeAux, h1, h2, h]

/-- Comparator `strLeAux` is transitive. -/
theorem strLeAux_trans : (as bs cs : List Char) →
    strLeAux as bs = true → strLeAux bs cs = true → strLeAux as cs = true
  | [], _, _ => fun _ _ => rfl
  | _ :: _, [], _ => fun h1 _ => by simp [strLeAux] at h1
  | _ :: _, _ :: _, [] => fun _ h2 => by simp [strLeAux] at h2
  | a :: as, b :: bs, c :: cs => fun h1 h2 => by
    simp only [strLeAux] at h1 h2 ⊢
    by_cases hab : a.toNat < b.toNat
    · by_cases hbc : b.toNat < c.toNat
      · simp [Nat.lt_trans hab hbc]
      · by_cases hcb : c.toNat < b.toNat
        · rw [if_neg hbc, if_pos hcb] at h2
          exact absurd h2 (by simp)
        · have hac : a.toNat < c.toNat := by omega
          simp [hac]
    · by_cases hba : b.toNat < a.toNat
      · rw [if_neg hab, if_pos hba] at h1
        exact absurd h1 (by simp)
      · rw [if_neg hab, if_neg hba] at h1
        by_cases hbc : b.toNat < c.toNat
        · have hac : a.toNat < c.toNat := by omega
          simp [hac]
        · by_cases hcb : c.toNat < b.toNat
          · rw [if_neg hbc, if_pos hcb] at h2
            exact absurd h2 (by simp)
          · rw [if_neg hbc, if_neg hcb] at h2
            have hac : ¬ a.toNat < c.toNat := by omega
            have hca : ¬ c.toNat < a.toNat := by omega
            rw [if_neg hac, if_neg hca]
            exact strLeAux_trans as bs cs h1 h2

instance : IsTotal String pyLe := ⟨fun a b => strLeAux_total a.data b.data⟩

instance : IsTrans String pyLe := ⟨fun a b c => strLeAux_trans a.data b.data c.data⟩

/-- C1: for every registry with (Python-dict-guaranteed) unique keys, the
Listing Endpoint's `apis` value is the list of `{"path": "/<name>"}` entries
over some enumeration `names` of exactly the registry keys, sorted
lexicographically, with no duplicates. -/
theorem resourcesView_apis_sorted {ρ : Type} (superContext : List (String × PyVal))
    (registry : List (String × ρ)) (schemaUrlAbs : String)
    (hnodup : (registry.map Prod.fst).Nodup) :
    ∃ names : List String,
      dictLookup (strippedContext
          (resourcesView_context superContext registry schemaUrlAbs)) "apis"
        = Option.some (.pylist (names.map
            (fun name => PyVal.pydict [("path", .pystr ("/" ++ name))]))) ∧
      names.Perm (registry.map Prod.fst) ∧
      List.Sorted pyLe names ∧
      names.Nodup := by
  refine ⟨pySorted (registry.map Prod.fst), ?_, ?_, ?_, ?_⟩
  · rw [dictLookup_strippedContext _ _ (by decide) (by decide)]
    unfold resourcesView_context
    simp only [dictUpdate, List.foldl]
    rw [dictLookup_dictSet_self]
    rfl
  · exact List.perm_insertionSort pyLe _
  · exact List.sorted_insertionSort pyLe _
  · exact (List.perm_insertionSort pyLe _).symm.nodup hnodup

/-- Witness for C1: the registry `{"book": 0, "author": 1}` has distinct keys
and yields the sorted listing `["/author", "/book"]`. -/
theorem resourcesView_apis_sorted_witness :
    ((([("book", (0 : Nat)), ("author", 1)]).map Prod.fst).Nodup) ∧
    ∃ names : List String,
      dictLookup (strippedContext
          (resourcesView_context [] [("book", (0 : Nat)), ("author", 1)]
            "http://testserver/api/doc/schema/")) "apis"
        = Option.some (.pylist (names.map
            (fun name => PyVal.pydict [("path", .pystr ("/" ++ name))]))) ∧
      names.Perm (([("book", (0 : Nat)), ("author", 1)]).map Prod.fst) ∧
      List.Sorted pyLe names ∧
      names.Nodup :=
  ⟨by decide,
   resourcesView_apis_sorted [] [("book", (0 : Nat)), ("author", 1)]
     "http://testserver/api/doc/schema/" (by decide)⟩

/-- The first element surviving `dropWhile` fails the predicate. -/
theorem head_dropWhile_false {α : Type} (p : α → Bool) :
    (l : List α) → ∀ a, (l.dropWhile p).head? = Option.some a → p a = false
  | [], a => fun h => by simp [List.dropWhile] at h
  | b :: t, a => fun h => by
    by_cases hb : p b = true
    · rw [List.dropWhile_cons, if_pos hb] at h
      exact head_dropWhile_false p t a h
    · rw [List.dropWhile_cons, if_neg hb] at h
      simp only [List.head?_cons, Option.some.injEq] at h
      rw [← h]
      simpa using hb

/-- C6: when the absolute schema URL does not itself start with `'/'` (any
scheme-qualified URL), the Listing context's `basePath` is that URL with all
trailing slashes removed: it ends in no `'/'` and prepending the removed
slashes gives back the URL unchanged. -/
theorem resourcesView_basePath_strips_trailing {ρ : Type}
    (superContext : List (String × PyVal)) (registry : List (String × ρ))
    (schemaUrlAbs : String)
    (h : schemaUrlAbs.data.head? ≠ Option.some '/') :
    ∃ (base : String) (k : Nat),
      dictLookup (strippedContext
          (resourcesView_context superContext registry schemaUrlAbs)) "basePath"
        = Option.some (.pystr base) ∧
      schemaUrlAbs.data = base.data ++ List.replicate k '/' ∧
      base.data.getLast? ≠ Option.some '/' := by
  have hleft : schemaUrlAbs.data.dropWhile (fun a => a == '/') = schemaUrlAbs.data := by
    cases hd : schemaUrlAbs.data with
    | nil => rfl
    | cons a t =>
      have ha : ¬ (a == '/') = true := by
        intro hb
        have : a = '/' := by simpa using hb
        rw [hd, this] at h
        simp at h
      rw [List.dropWhile_cons, if_neg ha]
  have hbase : (pyStrip '/' schemaUrlAbs).data
      = (schemaUrlAbs.data.reverse.dropWhile (fun a => a == '/')).reverse := by
    show (((schemaUrlAbs.data.dropWhile (· == '/')).reverse.dropWhile (· == '/')).reverse : List Char) = _
    rw [hleft]
  refine ⟨pyStrip '/' schemaUrlAbs,
    (schemaUrlAbs.data.reverse.takeWhile (fun a => a == '/')).length, ?_, ?_, ?_⟩
  · rw [dictLookup_strippedContext _ _ (by decide) (by decide)]
    unfold resourcesView_context
    simp only [dictUpdate, List.foldl]
    rw [dictLookup_dictSet_ne _ _ _ _ (by decide), dictLookup_dictSet_self]
  · have hrepl : (schemaUrlAbs.data.reverse.takeWhile (fun a => a == '/')).reverse
        = List.replicate
            (schemaUrlAbs.data.reverse.takeWhile (fun a => a == '/')).length '/' := by
      have hall : ∀ b ∈ schemaUrlAbs.data.reverse.takeWhile (fun a => a == '/'),
          b = '/' := by
        intro b hb
        simpa using List.mem_takeWhile_imp hb
      rw [List.eq_replicate_of_mem hall]
      simp
    calc schemaUrlAbs.data
        = schemaUrlAbs.data.reverse.reverse := (List.reverse_reverse _).symm
      _ = (schemaUrlAbs.data.reverse.takeWhile (fun a => a == '/')
            ++ schemaUrlAbs.data.reverse.dropWhile (fun a => a == '/')).reverse := by
          rw [List.takeWhile_append_dropWhile]
      _ = (schemaUrlAbs.data.reverse.dropWhile (fun a => a == '/')).reverse
            ++ (schemaUrlAbs.data.reverse.takeWhile (fun a => a == '/')).reverse := by
          rw [List.reverse_append]
      _ = (pyStrip '/' schemaUrlAbs).data
            ++ List.replicate
                (schemaUrlAbs.data.reverse.takeWhile (fun a => a == '/')).length '/' := by
          rw [hbase, hrepl]
  · rw [hbase, List.getLast?_reverse]
    intro hlast
    have := head_dropWhile_false (fun a => a == '/') schemaUrlAbs.data.reverse '/' hlast
    simp at this

/-- Witness for C6: the schema URL `http://testserver/api/doc/schema/` starts
with `h`, not `/`, and its basePath strips the one trailing slash. -/
theorem resourcesView_basePath_strips_trailing_witness :
    ("http://testserver/api/doc/schema/" : String).data.head? ≠ Option.some '/' ∧
    ∃ (base : String) (k : Nat),
      dictLookup (strippedContext
          (resourcesView_context [] [("book", (0 : Nat))]
            "http://testserver/api/doc/schema/")) "basePath"
        = Option.some (.pystr base) ∧
      ("http://testserver/api/doc/schema/" : String).data
        = base.data ++ List.replicate k '/' ∧
      base.data.getLast? ≠ Option.some '/' :=
  ⟨by decide,
   resourcesView_basePath_strips_trailing [] [("book", (0 : Nat))]
     "http://testserver/api/doc/schema/" (by decide)⟩
